import Mathlib

/-!
Verification of the municourt PDF table-reconstruction core.

Strings from the Go source are modelled as `List Char` (`Str`); Go slices of
strings become `List Str`.  Go `float64` values that only ever hold exact
decimal literals parsed from the content stream are modelled as exact
rationals (`ℚ`).  Each definition mirrors the Go function of the same name in
the repository's content-stream module.
-/

/-- A Go `string`, modelled as its character sequence. -/
abbrev Str := List Char

/-- Go `unicode.IsSpace`: the Unicode White_Space code points (Latin-1 fast
path `'\t'..'\r'`, `' '`, U+0085, U+00A0, plus the space-category points). -/
def goIsSpace (c : Char) : Bool :=
  c = ' ' || c = '\t' || c = '\n' || c = '\x0b' || c = '\x0c' || c = '\r' ||
  c = '\x85' || c = '\xa0' || c = ' ' ||
  (' ' ≤ c && c ≤ ' ') ||
  c = ' ' || c = ' ' || c = ' ' || c = ' ' || c = '　'

/-- Go `strings.TrimSpace`: drop leading and trailing white space. -/
def trimSpace (s : Str) : Str :=
  ((s.dropWhile goIsSpace).reverse.dropWhile goIsSpace).reverse

/-- Loop body of `groupIntoLines`: `current` is the line being accumulated. -/
def groupIntoLinesAux (current : List Str) : List Str → List (List Str)
  | [] => if current = [] then [] else [current]
  | item :: rest =>
    let s := trimSpace item
    if s = [] then
      if current = [] then groupIntoLinesAux [] rest
      else current :: groupIntoLinesAux [] rest
    else groupIntoLinesAux (current ++ [s]) rest

/-- `groupIntoLines` from the source: split text items into lines at
empty-string markers, trimming each item, dropping empty results, collapsing
adjacent markers and discarding leading/trailing ones. -/
def groupIntoLines (items : List Str) : List (List Str) :=
  groupIntoLinesAux [] items

lemma groupIntoLinesAux_ne_nil (items : List Str) :
    ∀ current, ∀ l ∈ groupIntoLinesAux current items, l ≠ [] := by
  induction items with
  | nil =>
    intro current l hl
    by_cases h : current = [] <;> simp [groupIntoLinesAux, h] at hl
    simpa [hl] using h
  | cons item rest ih =>
    intro current l hl
    by_cases hs : trimSpace item = []
    · by_cases hc : current = []
      · simp only [groupIntoLinesAux, hs, hc, if_pos rfl, if_pos] at hl
        exact ih [] l hl
      · simp only [groupIntoLinesAux, hs, if_pos rfl, if_neg hc, List.mem_cons] at hl
        rcases List.mem_cons.mp hl with h | h
        · subst h; exact hc
        · exact ih [] l h
    · simp only [groupIntoLinesAux, if_neg hs] at hl
      exact ih _ l hl

lemma groupIntoLinesAux_join (items : List Str) :
    ∀ current, (groupIntoLinesAux current items).flatten =
      current ++ (items.map trimSpace).filter (· ≠ []) := by
  induction items with
  | nil =>
    intro current
    by_cases h : current = [] <;> simp [groupIntoLinesAux, h]
  | cons item rest ih =>
    intro current
    by_cases hs : trimSpace item = []
    · by_cases hc : current = []
      · simp [groupIntoLinesAux, hs, hc, ih]
      · simp [groupIntoLinesAux, hs, hc, ih]
    · simp [groupIntoLinesAux, hs, ih, List.append_assoc]

/-- The example fragment sequence from the spec. -/
def exampleFragments : List Str :=
  ["", "A", "B", "", "C", "", "", "D", "E", "F", ""].map String.data

/-- C5: `groupIntoLines` never produces an empty line, preserves (after
trimming and dropping empties) the relative order and content of the
surviving fragments, and maps the example sequence to the three expected
lines. -/
theorem groupIntoLines_c5 :
    (∀ items : List Str, ∀ l ∈ groupIntoLines items, l ≠ []) ∧
    (∀ items : List Str,
      (groupIntoLines items).flatten = (items.map trimSpace).filter (· ≠ [])) ∧
    groupIntoLines exampleFragments =
      [[['A'], ['B']], [['C']], [['D'], ['E'], ['F']]] := by
  refine ⟨fun items => groupIntoLinesAux_ne_nil items [], fun items => ?_, ?_⟩
  · simpa using groupIntoLinesAux_join items []
  · decide

/-- Closed instance discharging the membership hypothesis of `groupIntoLines_c5`. -/
theorem groupIntoLines_c5_witness : ([['A']] : List Str) ≠ [] :=
  groupIntoLines_c5.1 [['A']] [['A']] (by decide)

/-! ## Number Repairer -/

/-- ASCII digit test, as written in the Go source (`c >= '0' && c <= '9'`). -/
def isDigit (c : Char) : Bool := '0' ≤ c && c ≤ '9'

/-- `isThreeDigits` from the source: length three, all ASCII digits. -/
def isThreeDigits (s : Str) : Bool :=
  s.length = 3 && s.all isDigit

/-- Go `strings.TrimPrefix(s, "-")`: drop one leading minus sign if present. -/
def trimMinus (s : Str) : Str :=
  match s with
  | '-' :: rest => rest
  | other => other

/-- The suffix of `s` after its last comma (`s[strings.LastIndex(s,",")+1:]`). -/
def afterLastComma (s : Str) : Str :=
  (s.reverse.takeWhile (· != ',')).reverse

/-- `looksLikeCommaSplit` from the source: right must be exactly three digits;
left must end in a digit and be either an already-merged comma number whose
last group is three digits, or a bare 1–2 digit numeral with optional minus. -/
def looksLikeCommaSplit (left right : Str) : Bool :=
  if !isThreeDigits right then false
  else if left = [] then false
  else if !isDigit (left.getLastD ' ') then false
  else if left.contains ',' then isThreeDigits (afterLastComma left)
  else
    let stripped := trimMinus left
    if stripped.length < 1 || stripped.length > 2 then false
    else stripped.all isDigit

/-- The left-hand digit group used for priority: minus sign stripped, and for
already-merged values only the group after the last comma. -/
def commaStripped (left : Str) : Str :=
  let d := trimMinus left
  if d.contains ',' then afterLastComma d else d

/-- Merge priority from the source loop: 3 when the right part has a leading
zero, else 2 for a one-digit left group, 1 for a two-digit left group, 0
otherwise. -/
def mergePriority (left right : Str) : Int :=
  if right.headD ' ' = '0' then 3
  else if (commaStripped left).length = 1 then 2
  else if (commaStripped left).length = 2 then 1
  else 0

/-- One candidate inspection of the best-pair scan in `mergeCommaSplitNumbers`:
keep the accumulator unless pair `i` qualifies with a strictly higher priority. -/
def findBestStep (line : List Str) (acc : Option Nat × Int) (i : Nat) :
    Option Nat × Int :=
  if looksLikeCommaSplit (line.getD i []) (line.getD (i+1) []) then
    let p := mergePriority (line.getD i []) (line.getD (i+1) [])
    if p > acc.2 then (some i, p) else acc
  else acc

/-- The best-pair scan (`bestIdx`/`bestPriority` loop) of the source. -/
def findBest (line : List Str) : Option Nat :=
  ((List.range (line.length - 1)).foldl (findBestStep line) (none, -1)).1

/-- Replace the pair at `i` by its comma-joined concatenation. -/
def mergeAt (line : List Str) (i : Nat) : List Str :=
  line.take i ++ [line.getD i [] ++ ',' :: line.getD (i+1) []] ++ line.drop (i+2)

lemma findBest_foldl_mem (line : List Str) (i : Nat) :
    ∀ (l : List Nat) (acc : Option Nat × Int),
      (l.foldl (findBestStep line) acc).1 = some i → acc.1 = some i ∨ i ∈ l := by
  intro l
  induction l with
  | nil => intro acc h; exact Or.inl h
  | cons j rest ih =>
    intro acc h
    rcases ih (findBestStep line acc j) h with h' | h'
    · unfold findBestStep at h'
      by_cases hq : looksLikeCommaSplit (line.getD j []) (line.getD (j+1) []) = true
      · simp only [hq, if_pos] at h'
        by_cases hp : mergePriority (line.getD j []) (line.getD (j+1) []) > acc.2
        · simp only [if_pos hp] at h'
          right; simp [Option.some.injEq] at h'; simp [h']
        · simp only [if_neg hp] at h'; exact Or.inl h'
      · simp only [Bool.not_eq_true] at hq
        simp only [hq] at h'
        simp at h'
        exact Or.inl h'
    · right; exact List.mem_cons_of_mem _ h'

lemma findBest_lt (line : List Str) (i : Nat) (h : findBest line = some i) :
    i + 1 < line.length := by
  unfold findBest at h
  rcases findBest_foldl_mem line i _ _ h with h' | h'
  · simp at h'
  · have := List.mem_range.mp h'
    omega

lemma mergeAt_length (line : List Str) (i : Nat) (h : i + 1 < line.length) :
    (mergeAt line i).length = line.length - 1 := by
  simp [mergeAt]
  omega

/-- `mergeCommaSplitNumbers` from the source: while the line is longer than
`expectedLen`, find the best qualifying adjacent pair and merge it with an
inserted comma; stop when no pair qualifies. -/
def mergeCommaSplitNumbers (line : List Str) (expectedLen : Nat) : List Str :=
  if line.length > expectedLen then
    match h : findBest line with
    | none => line
    | some i => mergeCommaSplitNumbers (mergeAt line i) expectedLen
  else line
termination_by line.length
decreasing_by
  have := findBest_lt line i h
  rw [mergeAt_length line i this]
  omega

/-- Pair `i` of the line qualifies for merging. -/
def qualifiesAt (line : List Str) (i : Nat) : Prop :=
  i + 1 < line.length ∧
  looksLikeCommaSplit (line.getD i []) (line.getD (i+1) []) = true

/-- The priority of pair `i` of the line. -/
def prioAt (line : List Str) (i : Nat) : Int :=
  mergePriority (line.getD i []) (line.getD (i+1) [])

lemma mergePriority_nonneg (l r : Str) : 0 ≤ mergePriority l r := by
  unfold mergePriority
  split
  · norm_num
  · split
    · norm_num
    · split <;> norm_num

lemma findBestStep_of_true (line : List Str) (acc : Option Nat × Int) (i : Nat)
    (h : looksLikeCommaSplit (line.getD i []) (line.getD (i+1) []) = true) :
    findBestStep line acc i =
      if mergePriority (line.getD i []) (line.getD (i+1) []) > acc.2
      then (some i, mergePriority (line.getD i []) (line.getD (i+1) []))
      else acc := by
  unfold findBestStep
  rw [if_pos h]

lemma findBestStep_of_false (line : List Str) (acc : Option Nat × Int) (i : Nat)
    (h : looksLikeCommaSplit (line.getD i []) (line.getD (i+1) []) = false) :
    findBestStep line acc i = acc := by
  unfold findBestStep
  rw [if_neg (by rw [h]; exact Bool.false_ne_true)]

lemma findBest_fold_spec (line : List Str) (k : Nat) :
    ((List.range k).foldl (findBestStep line) (none, -1) =
        ((none : Option Nat), (-1 : Int)) ∧
      ∀ j < k, looksLikeCommaSplit (line.getD j []) (line.getD (j+1) []) = false) ∨
    (∃ i, (List.range k).foldl (findBestStep line) (none, -1) =
        (some i, prioAt line i) ∧
      i < k ∧ looksLikeCommaSplit (line.getD i []) (line.getD (i+1) []) = true ∧
      ∀ j < k, looksLikeCommaSplit (line.getD j []) (line.getD (j+1) []) = true →
        prioAt line j ≤ prioAt line i ∧ (prioAt line j = prioAt line i → i ≤ j)) := by
  induction k with
  | zero =>
    left
    exact ⟨rfl, fun j hj => absurd hj (by omega)⟩
  | succ k ih =>
    rw [List.range_succ, List.foldl_append, List.foldl_cons, List.foldl_nil]
    rcases ih with ⟨hacc, hnone⟩ | ⟨i, hacc, hik, hq, hbest⟩
    · rw [hacc]
      by_cases hk : looksLikeCommaSplit (line.getD k []) (line.getD (k+1) []) = true
      · right
        refine ⟨k, ?_, by omega, hk, ?_⟩
        · rw [findBestStep_of_true line _ k hk, if_pos ?_]
          · rfl
          · have := mergePriority_nonneg (line.getD k []) (line.getD (k+1) [])
            show mergePriority _ _ > -1
            omega
        · intro j hj hjq
          rcases Nat.lt_succ_iff_lt_or_eq.mp hj with hj' | hj'
          · rw [hnone j hj'] at hjq
            exact absurd hjq Bool.false_ne_true
          · subst hj'
            exact ⟨le_refl _, fun _ => le_refl _⟩
      · left
        rw [Bool.not_eq_true] at hk
        refine ⟨findBestStep_of_false line _ k hk, ?_⟩
        intro j hj
        rcases Nat.lt_succ_iff_lt_or_eq.mp hj with hj' | hj'
        · exact hnone j hj'
        · subst hj'; exact hk
    · rw [hacc]
      by_cases hk : looksLikeCommaSplit (line.getD k []) (line.getD (k+1) []) = true
      · by_cases hp : mergePriority (line.getD k []) (line.getD (k+1) []) >
            prioAt line i
        · right
          refine ⟨k, ?_, by omega, hk, ?_⟩
          · rw [findBestStep_of_true line _ k hk, if_pos hp]
            rfl
          · intro j hj hjq
            rcases Nat.lt_succ_iff_lt_or_eq.mp hj with hj' | hj'
            · have h1 := (hbest j hj' hjq).1
              have h2 : prioAt line j < prioAt line k := lt_of_le_of_lt h1 hp
              exact ⟨le_of_lt h2, fun he => absurd he (by omega)⟩
            · subst hj'
              exact ⟨le_refl _, fun _ => le_refl _⟩
        · right
          refine ⟨i, ?_, by omega, hq, ?_⟩
          · rw [findBestStep_of_true line _ k hk, if_neg hp]
          · intro j hj hjq
            rcases Nat.lt_succ_iff_lt_or_eq.mp hj with hj' | hj'
            · exact hbest j hj' hjq
            · subst hj'
              exact ⟨le_of_not_lt hp, fun _ => le_of_lt hik⟩
      · right
        rw [Bool.not_eq_true] at hk
        refine ⟨i, findBestStep_of_false line _ k hk, by omega, hq, ?_⟩
        intro j hj hjq
        rcases Nat.lt_succ_iff_lt_or_eq.mp hj with hj' | hj'
        · exact hbest j hj' hjq
        · subst hj'
          rw [hk] at hjq
          exact absurd hjq Bool.false_ne_true

/-- `findBest` returns the earliest highest-priority qualifying pair. -/
def bestMergeChoice (line : List Str) (i : Nat) : Prop :=
  qualifiesAt line i ∧
  (∀ j, qualifiesAt line j → prioAt line j ≤ prioAt line i) ∧
  (∀ j, qualifiesAt line j → prioAt line j = prioAt line i → i ≤ j)

lemma findBest_some (line : List Str) (i : Nat) (h : findBest line = some i) :
    bestMergeChoice line i := by
  unfold findBest at h
  rcases findBest_fold_spec line (line.length - 1) with ⟨hacc, _⟩ |
      ⟨i', hacc, hik, hq, hbest⟩
  · rw [hacc] at h; simp at h
  · rw [hacc] at h
    simp only [Option.some.injEq] at h
    subst h
    refine ⟨⟨by omega, hq⟩, ?_, ?_⟩
    · intro j hjq
      have hjb := hjq.1
      exact (hbest j (by omega) hjq.2).1
    · intro j hjq he
      have hjb := hjq.1
      exact (hbest j (by omega) hjq.2).2 he

lemma findBest_none (line : List Str) (h : findBest line = none) :
    ∀ j, ¬ qualifiesAt line j := by
  intro j hj
  unfold findBest at h
  rcases findBest_fold_spec line (line.length - 1) with ⟨hacc, hnone⟩ |
      ⟨i', hacc, _, _, _⟩
  · have hjb := hj.1
    have := hnone j (by omega)
    rw [hj.2] at this
    exact Bool.true_eq_false.mp this
  · rw [hacc] at h; simp at h

/-- The pair-selection rule exactly as the claim words it: right is exactly 3
ASCII digits; left ends in a digit and either already contains a comma with
its last group exactly 3 digits, or is a bare 1-2 digit numeral optionally
prefixed with a minus sign. -/
def claimCommaSplit (left right : Str) : Bool :=
  (decide (right.length = 3) && right.all isDigit) &&
  !decide (left = []) &&
  isDigit (left.getLastD ' ') &&
  (if left.contains ',' then
      decide ((afterLastComma left).length = 3) && (afterLastComma left).all isDigit
    else
      (decide ((trimMinus left).length = 1) ||
        decide ((trimMinus left).length = 2)) && (trimMinus left).all isDigit)

lemma looksLike_eq_claim (left right : Str) :
    looksLikeCommaSplit left right = claimCommaSplit left right := by
  unfold looksLikeCommaSplit claimCommaSplit isThreeDigits
  cases hr3 : decide (right.length = 3) <;>
    cases hra : right.all isDigit <;>
      cases hle : decide (left = []) <;>
        cases hld : isDigit (left.getLastD ' ') <;>
          cases hlc : left.contains ',' <;>
            simp_all <;>
  · by_cases h1 : (trimMinus left).length = 1
    · simp [h1]
      intro _ hnil
      rw [hnil] at h1
      simp at h1
    · by_cases h2 : (trimMinus left).length = 2
      · simp [h1, h2]
        intro _ hnil
        rw [hnil] at h2
        simp at h2
      · have h3 : (trimMinus left).length < 1 ∨ (trimMinus left).length > 2 := by
          omega
        rcases h3 with h3 | h3
        · have hnil : trimMinus left = [] := List.length_eq_zero.mp (by omega)
          simp [hnil]
        · simp [h1, h2, h3]

/-- C2: the pair-selection predicate is exactly the claimed one, and the merge
loop picks, among qualifying adjacent pairs, the earliest pair of maximal
priority, merging it by comma-joined concatenation. -/
theorem commaSplit_selection_c2 :
    (∀ left right, looksLikeCommaSplit left right = claimCommaSplit left right) ∧
    (∀ line i, findBest line = some i → bestMergeChoice line i) ∧
    (∀ line, findBest line = none → ∀ j, ¬ qualifiesAt line j) ∧
    (∀ (line : List Str) (exp : Nat), line.length > exp →
      mergeCommaSplitNumbers line exp =
        match findBest line with
        | none => line
        | some i => mergeCommaSplitNumbers (mergeAt line i) exp) := by
  refine ⟨looksLike_eq_claim, findBest_some, findBest_none, ?_⟩
  intro line exp h
  rw [mergeCommaSplitNumbers, if_pos h]
  split
  next heq => rw [heq]
  next i heq => rw [heq]

/-- Closed instance of `commaSplit_selection_c2` at the spec's merge-priority
example line, discharging its hypotheses at concrete inputs. -/
theorem commaSplit_selection_c2_witness :
    looksLikeCommaSplit ['1'] ['0', '0', '0'] = claimCommaSplit ['1'] ['0', '0', '0'] ∧
    bestMergeChoice [['1'], ['0', '0', '0'], ['5', '6']] 0 :=
  ⟨commaSplit_selection_c2.1 ['1'] ['0', '0', '0'],
   commaSplit_selection_c2.2.1 [['1'], ['0', '0', '0'], ['5', '6']] 0 (by decide)⟩

/-- C8: `mergeCommaSplitNumbers` returns its input unchanged whenever the
line's length does not exceed the expected count. -/
theorem merge_noop_c8 (line : List Str) (exp : Nat) (h : line.length ≤ exp) :
    mergeCommaSplitNumbers line exp = line := by
  rw [mergeCommaSplitNumbers, if_neg (by omega)]

/-- Closed instance of `merge_noop_c8` at a concrete row of expected length. -/
theorem merge_noop_c8_witness :
    mergeCommaSplitNumbers [['a'], ['4', '3', '4']] 10 = [['a'], ['4', '3', '4']] :=
  merge_noop_c8 [['a'], ['4', '3', '4']] 10 (by decide)

/-! ## Content preservation of the Number Repairer (C10) -/

/-- Join a run of items with commas (the shape of every merged output item). -/
def commaJoin (parts : List Str) : Str :=
  List.intercalate [','] parts

lemma commaJoin_single (a : Str) : commaJoin [a] = a := by
  simp [commaJoin, List.intercalate]

lemma commaJoin_cons_cons (a b : Str) (l : List Str) :
    commaJoin (a :: b :: l) = a ++ ',' :: commaJoin (b :: l) := by
  simp [commaJoin, List.intercalate, List.intersperse_cons_cons]

lemma commaJoin_cons_of_ne (a : Str) (l : List Str) (h : l ≠ []) :
    commaJoin (a :: l) = a ++ ',' :: commaJoin l := by
  cases l with
  | nil => exact absurd rfl h
  | cons b t => exact commaJoin_cons_cons a b t

lemma commaJoin_merge (xs : List Str) (a b : Str) (ys : List Str) :
    commaJoin (xs ++ (a ++ ',' :: b) :: ys) = commaJoin (xs ++ a :: b :: ys) := by
  induction xs with
  | nil =>
    cases ys with
    | nil => simp [commaJoin_single, commaJoin_cons_cons]
    | cons y t =>
      rw [List.nil_append, List.nil_append,
        commaJoin_cons_of_ne _ _ (List.cons_ne_nil y t), commaJoin_cons_cons,
        commaJoin_cons_of_ne b _ (List.cons_ne_nil y t)]
      simp
  | cons x xs ih =>
    have h1 : xs ++ (a ++ ',' :: b) :: ys ≠ [] :=
      List.append_ne_nil_of_right_ne_nil xs (List.cons_ne_nil _ ys)
    have h2 : xs ++ a :: b :: ys ≠ [] :=
      List.append_ne_nil_of_right_ne_nil xs (List.cons_ne_nil _ _)
    rw [List.cons_append, List.cons_append, commaJoin_cons_of_ne x _ h1,
      commaJoin_cons_of_ne x _ h2, ih]

lemma flatten_split {α : Type} (parts : List (List α)) :
    ∀ (A : List α) (m : α) (B : List α), parts.flatten = A ++ m :: B →
    ∃ ps r₁ r₂ qs, parts = ps ++ (r₁ ++ m :: r₂) :: qs ∧
      ps.flatten ++ r₁ = A ∧ r₂ ++ qs.flatten = B := by
  induction parts with
  | nil =>
    intro A m B h
    exact absurd h.symm (List.append_ne_nil_of_right_ne_nil A (List.cons_ne_nil m B))
  | cons p rest ih =>
    intro A m B h
    rw [List.flatten_cons] at h
    rcases le_or_lt p.length A.length with hle | hlt
    · have htake := congrArg (List.take p.length) h
      have hdrop := congrArg (List.drop p.length) h
      rw [List.take_append_eq_append_take, List.take_length,
        Nat.sub_self, List.take_zero, List.append_nil] at htake
      rw [List.take_append_eq_append_take, Nat.sub_eq_zero_of_le hle,
        List.take_zero, List.append_nil] at htake
      rw [List.drop_append_eq_append_drop, List.drop_length,
        Nat.sub_self, List.drop_zero, List.nil_append] at hdrop
      rw [List.drop_append_eq_append_drop, Nat.sub_eq_zero_of_le hle,
        List.drop_zero] at hdrop
      obtain ⟨ps, r₁, r₂, qs, hparts, hA, hB⟩ := ih (A.drop p.length) m B hdrop
      refine ⟨p :: ps, r₁, r₂, qs, ?_, ?_, hB⟩
      · rw [List.cons_append, hparts]
      · rw [List.flatten_cons, List.append_assoc, hA, htake,
          List.length_take, Nat.min_eq_left hle, List.take_append_drop]
    · have htake := congrArg (List.take A.length) h
      have hdrop := congrArg (List.drop A.length) h
      rw [List.take_append_eq_append_take,
        Nat.sub_eq_zero_of_le (Nat.le_of_lt hlt), List.take_zero,
        List.append_nil] at htake
      rw [List.take_append_eq_append_take, List.take_length, Nat.sub_self,
        List.take_zero, List.append_nil] at htake
      rw [List.drop_append_eq_append_drop,
        Nat.sub_eq_zero_of_le (Nat.le_of_lt hlt), List.drop_zero] at hdrop
      rw [List.drop_append_eq_append_drop, List.drop_length, Nat.sub_self,
        List.drop_zero, List.nil_append] at hdrop
      cases hd : p.drop A.length with
      | nil =>
        have := congrArg List.length hd
        simp only [List.length_drop, List.length_nil] at this
        omega
      | cons c cs =>
        rw [hd, List.cons_append] at hdrop
        have hc : c = m := (List.cons.injEq _ _ _ _).mp hdrop |>.1
        have hcs : cs ++ rest.flatten = B := (List.cons.injEq _ _ _ _).mp hdrop |>.2
        refine ⟨[], p.take A.length, cs, rest, ?_, ?_, hcs⟩
        · rw [List.nil_append]
          have hp : p = p.take A.length ++ m :: cs := by
            rw [← hc, ← hd, List.take_append_drop]
          rw [← hp]
        · rw [List.flatten_nil, List.nil_append, htake]

lemma line_split_at (line : List Str) (i : Nat) (h : i + 1 < line.length) :
    line = line.take i ++ line.getD i [] :: line.getD (i+1) [] :: line.drop (i+2) := by
  have h0 : i < line.length := by omega
  have e1 : line.drop i = line.getD i [] :: line.drop (i+1) := by
    rw [List.drop_eq_getElem_cons h0, List.getD_eq_getElem?_getD,
      List.getElem?_eq_getElem h0]
    rfl
  have e2 : line.drop (i+1) = line.getD (i+1) [] :: line.drop (i+2) := by
    rw [List.drop_eq_getElem_cons h, List.getD_eq_getElem?_getD,
      List.getElem?_eq_getElem h]
    rfl
  conv_lhs => rw [← List.take_append_drop i line]
  rw [e1, e2]

lemma mergeAt_decomp (line : List Str) (i : Nat) :
    mergeAt line i = line.take i ++
      (line.getD i [] ++ ',' :: line.getD (i+1) []) :: line.drop (i+2) := by
  simp [mergeAt]

lemma merge_eq_of_le (line : List Str) (exp : Nat) (h : ¬ line.length > exp) :
    mergeCommaSplitNumbers line exp = line := by
  rw [mergeCommaSplitNumbers, if_neg h]

lemma merge_eq_none (line : List Str) (exp : Nat) (hg : line.length > exp)
    (hf : findBest line = none) : mergeCommaSplitNumbers line exp = line := by
  rw [mergeCommaSplitNumbers, if_pos hg]
  split
  next => rfl
  next i heq =>
    have := hf.symm.trans heq
    simp at this

lemma merge_eq_some (line : List Str) (exp : Nat) (i : Nat)
    (hg : line.length > exp) (hf : findBest line = some i) :
    mergeCommaSplitNumbers line exp = mergeCommaSplitNumbers (mergeAt line i) exp := by
  rw [mergeCommaSplitNumbers, if_pos hg]
  split
  next heq =>
    have := hf.symm.trans heq
    simp at this
  next j heq =>
    have := hf.symm.trans heq
    simp only [Option.some.injEq] at this
    subst this
    rfl

lemma flatten_singletons {α : Type} (l : List α) :
    (l.map (fun s => [s])).flatten = l := by
  induction l <;> simp [*]

lemma merge_partition : ∀ (n : Nat) (line : List Str) (exp : Nat),
    line.length ≤ n →
    ∃ parts : List (List Str), parts.flatten = line ∧ (∀ p ∈ parts, p ≠ []) ∧
      mergeCommaSplitNumbers line exp = parts.map commaJoin := by
  intro n
  induction n with
  | zero =>
    intro line exp hlen
    have hnil : line = [] := List.length_eq_zero.mp (by omega)
    subst hnil
    exact ⟨[], rfl, by simp, by rw [merge_eq_of_le _ _ (by simp)]; rfl⟩
  | succ n ih =>
    intro line exp hlen
    by_cases hg : line.length > exp
    · cases hf : findBest line with
      | none =>
        refine ⟨line.map (fun s => [s]), flatten_singletons line, by simp, ?_⟩
        rw [merge_eq_none line exp hg hf, List.map_map]
        simp [Function.comp_def, commaJoin_single]
      | some i =>
        have hi := findBest_lt line i hf
        have hlen' : (mergeAt line i).length ≤ n := by
          rw [mergeAt_length line i hi]; omega
        obtain ⟨parts₁, hfl, hne, hm⟩ := ih (mergeAt line i) exp hlen'
        rw [mergeAt_decomp] at hfl
        obtain ⟨ps, r₁, r₂, qs, hparts, hA, hB⟩ :=
          flatten_split parts₁ _ _ _ hfl
        refine ⟨ps ++ (r₁ ++ line.getD i [] :: line.getD (i+1) [] :: r₂) :: qs,
          ?_, ?_, ?_⟩
        · rw [List.flatten_append, List.flatten_cons]
          calc ps.flatten ++ ((r₁ ++ line.getD i [] :: line.getD (i+1) [] :: r₂) ++ qs.flatten)
              = (ps.flatten ++ r₁) ++
                line.getD i [] :: line.getD (i+1) [] :: (r₂ ++ qs.flatten) := by
                simp [List.append_assoc]
            _ = line := by rw [hA, hB, ← line_split_at line i hi]
        · intro p hp
          rcases List.mem_append.mp hp with hp | hp
          · exact hne p (by rw [hparts]; exact List.mem_append_left _ hp)
          · rcases List.mem_cons.mp hp with hp | hp
            · subst hp
              exact List.append_ne_nil_of_right_ne_nil _ (List.cons_ne_nil _ _)
            · exact hne p (by
                rw [hparts]
                exact List.mem_append_right _ (List.mem_cons_of_mem _ hp))
        · rw [merge_eq_some line exp i hg hf, hm, hparts]
          rw [List.map_append, List.map_cons, List.map_append, List.map_cons]
          rw [commaJoin_merge r₁ (line.getD i []) (line.getD (i+1) []) r₂]
    · refine ⟨line.map (fun s => [s]), flatten_singletons line, by simp, ?_⟩
      rw [merge_eq_of_le line exp hg, List.map_map]
      simp [Function.comp_def, commaJoin_single]

lemma filter_comma_commaJoin (p : List Str) :
    (commaJoin p).filter (· != ',') = p.flatten.filter (· != ',') := by
  induction p with
  | nil => rfl
  | cons a t ih =>
    cases t with
    | nil => simp [commaJoin_single]
    | cons b t' =>
      rw [commaJoin_cons_cons, List.filter_append, List.flatten_cons,
        List.filter_append, List.filter_cons]
      simp only [bne_self_eq_false, Bool.false_eq_true, if_neg]
      rw [ih]
      simp

lemma filter_comma_map (parts : List (List Str)) :
    ((parts.map commaJoin).flatten).filter (· != ',') =
      (parts.flatten.flatten).filter (· != ',') := by
  induction parts with
  | nil => rfl
  | cons p t ih =>
    rw [List.map_cons, List.flatten_cons, List.filter_append,
      filter_comma_commaJoin, List.flatten_cons, List.flatten_append,
      List.filter_append, ih]

/-- C10: every output item of `mergeCommaSplitNumbers` is the comma-join of a
contiguous nonempty run of input items, in input order; consequently deleting
all commas from the concatenated output yields the comma-deleted concatenated
input — merging never drops, reorders or alters characters. -/
theorem merge_content_c10 (line : List Str) (exp : Nat) :
    (∃ parts : List (List Str), parts.flatten = line ∧ (∀ p ∈ parts, p ≠ []) ∧
      mergeCommaSplitNumbers line exp = parts.map commaJoin) ∧
    ((mergeCommaSplitNumbers line exp).flatten).filter (· != ',') =
      (line.flatten).filter (· != ',') := by
  obtain ⟨parts, hfl, hne, hm⟩ := merge_partition line.length line exp (le_refl _)
  refine ⟨⟨parts, hfl, hne, hm⟩, ?_⟩
  rw [hm, filter_comma_map, hfl]

/-- Closed instance of `merge_content_c10` at the spec's merge example. -/
theorem merge_content_c10_witness :
    ((mergeCommaSplitNumbers [['1'], ['0', '0', '0']] 1).flatten).filter (· != ',') =
      (([['1'], ['0', '0', '0']] : List Str).flatten).filter (· != ',') :=
  (merge_content_c10 [['1'], ['0', '0', '0']] 1).2

/-! ## Content-stream tokens and the TJ kerning rule -/

/-- A content-stream token: string, number, operator, or array.  The Go
struct stores a kind tag, a value string and (for arrays) children; the
inductive mirrors that tagged shape. -/
inductive Tok where
  | str (value : Str)
  | num (value : Str)
  | op (value : Str)
  | arr (children : List Tok)

/-- The `value` field of the Go token struct (empty for arrays). -/
def Tok.value : Tok → Str
  | .str v => v
  | .num v => v
  | .op v => v
  | .arr _ => []

/-- Value of a digit run, most significant first. -/
def digitsToNat (ds : Str) : Nat :=
  ds.foldl (fun acc c => acc * 10 + (c.toNat - '0'.toNat)) 0

/-- Go `strconv.ParseFloat` restricted to the plain decimal forms the content
stream contains (optional sign, digits, optional fraction); the exact decimal
value is represented as a rational. -/
def parseGoFloat (s : Str) : Option ℚ :=
  let signed : ℚ × Str :=
    match s with
    | '-' :: r => (-1, r)
    | '+' :: r => (1, r)
    | r => (1, r)
  let intPart := signed.2.takeWhile isDigit
  let rest := signed.2.drop intPart.length
  match rest with
  | [] => if intPart.isEmpty then none else some (signed.1 * digitsToNat intPart)
  | '.' :: frac =>
    if frac.all isDigit && (!intPart.isEmpty || !frac.isEmpty) then
      some (signed.1 * (digitsToNat intPart + digitsToNat frac / (10 ^ frac.length)))
    else none
  | _ => none

/-- `kerningThreshold` from the source. -/
def kerningThreshold : ℚ := 500

/-- State of the `processTJArray` loop. -/
structure TJState where
  items : List Str
  cur : Str
  nextGap : ℚ
  isFirst : Bool
deriving DecidableEq

/-- Per-character body of the string case of `processTJArray`. -/
def tjChar (tcThousandths : ℚ) (st : TJState) (ch : Char) : TJState :=
  let st :=
    if st.isFirst = false ∧ st.cur ≠ [] ∧ kerningThreshold < |st.nextGap| then
      { st with items := st.items ++ [st.cur], cur := [] }
    else st
  { st with cur := st.cur ++ [ch], isFirst := false, nextGap := tcThousandths }

/-- Per-child body of `processTJArray`: strings append characters, numbers
subtract their value from the pending gap. -/
def tjChild (tcThousandths : ℚ) (st : TJState) (c : Tok) : TJState :=
  match c with
  | .str v => v.foldl (tjChar tcThousandths) st
  | .num v =>
    match parseGoFloat v with
    | none => st
    | some val => { st with nextGap := st.nextGap - val }
  | _ => st

/-- `processTJArray` from the source: walk the TJ array children, splitting
fragments where the accumulated kerning gap exceeds the threshold.  The Go
loop starts with `nextGap := 0.0`. -/
def processTJArray (children : List Tok) (tcThousandths : ℚ) : List Str :=
  let st := children.foldl (tjChild tcThousandths)
    { items := [], cur := [], nextGap := 0, isFirst := true }
  if st.cur ≠ [] then st.items ++ [st.cur] else st.items

/-- Per-character step exactly as the claim words it: the flush decision looks
only at `isFirst` and the accumulated gap (no emptiness test on the current
fragment). -/
def claimTJChar (tcThousandths : ℚ) (st : TJState) (ch : Char) : TJState :=
  let st :=
    if st.isFirst = false ∧ kerningThreshold < |st.nextGap| then
      { st with items := st.items ++ [st.cur], cur := [] }
    else st
  { st with cur := st.cur ++ [ch], isFirst := false, nextGap := tcThousandths }

/-- Per-child step of the claim's walk. -/
def claimTJChild (tcThousandths : ℚ) (st : TJState) (c : Tok) : TJState :=
  match c with
  | .str v => v.foldl (claimTJChar tcThousandths) st
  | .num v =>
    match parseGoFloat v with
    | none => st
    | some val => { st with nextGap := st.nextGap - val }
  | _ => st

/-- The TJ walk exactly as the claim words it: the running gap is seeded with
`Tc*1000`. -/
def claimTJArray (children : List Tok) (tcThousandths : ℚ) : List Str :=
  let st := children.foldl (claimTJChild tcThousandths)
    { items := [], cur := [], nextGap := tcThousandths, isFirst := true }
  if st.cur ≠ [] then st.items ++ [st.cur] else st.items

lemma tjChar_eq_claim (tc : ℚ) (st : TJState) (ch : Char)
    (h1 : st.isFirst = false) (h2 : st.cur ≠ []) :
    tjChar tc st ch = claimTJChar tc st ch := by
  unfold tjChar claimTJChar
  simp [h1, h2]

lemma claimTJChar_post (tc : ℚ) (st : TJState) (ch : Char) :
    (claimTJChar tc st ch).isFirst = false ∧ (claimTJChar tc st ch).cur ≠ [] := by
  unfold claimTJChar
  split <;> simp

lemma foldl_tjChar_eq_claim (tc : ℚ) (v : Str) :
    ∀ st, st.isFirst = false → st.cur ≠ [] →
    v.foldl (tjChar tc) st = v.foldl (claimTJChar tc) st ∧
    (v.foldl (tjChar tc) st).isFirst = false ∧
    (v.foldl (tjChar tc) st).cur ≠ [] := by
  induction v with
  | nil => intro st h1 h2; exact ⟨rfl, h1, h2⟩
  | cons ch rest ih =>
    intro st h1 h2
    rw [List.foldl_cons, List.foldl_cons, tjChar_eq_claim tc st ch h1 h2]
    have hres := claimTJChar_post tc st ch
    exact ih _ hres.1 hres.2

lemma foldl_tjChild_eq_claim (tc : ℚ) (children : List Tok) :
    ∀ st, st.isFirst = false → st.cur ≠ [] →
    children.foldl (tjChild tc) st = children.foldl (claimTJChild tc) st ∧
    (children.foldl (tjChild tc) st).isFirst = false ∧
    (children.foldl (tjChild tc) st).cur ≠ [] := by
  induction children with
  | nil => intro st h1 h2; exact ⟨rfl, h1, h2⟩
  | cons c rest ih =>
    intro st h1 h2
    rw [List.foldl_cons, List.foldl_cons]
    match c with
    | .str v =>
      obtain ⟨heq, hf, hc⟩ := foldl_tjChar_eq_claim tc v st h1 h2
      show rest.foldl (tjChild tc) (v.foldl (tjChar tc) st) = _ ∧ _
      rw [show claimTJChild tc st (.str v) = v.foldl (claimTJChar tc) st from rfl,
        ← heq]
      exact ih _ hf hc
    | .num v =>
      cases hp : parseGoFloat v with
      | none =>
        simp only [tjChild, claimTJChild, hp]
        exact ih st h1 h2
      | some val =>
        simp only [tjChild, claimTJChild, hp]
        exact ih _ h1 h2
    | .op v =>
      simp only [tjChild, claimTJChild]
      exact ih st h1 h2
    | .arr cs =>
      simp only [tjChild, claimTJChild]
      exact ih st h1 h2

lemma tj_seed_irrelevant (tc : ℚ) : ∀ (children : List Tok) (g g' : ℚ),
    (children.foldl (tjChild tc) ⟨[], [], g, true⟩ =
      children.foldl (claimTJChild tc) ⟨[], [], g', true⟩) ∨
    (∃ g₁ g₂, children.foldl (tjChild tc) ⟨[], [], g, true⟩ = ⟨[], [], g₁, true⟩ ∧
      children.foldl (claimTJChild tc) ⟨[], [], g', true⟩ = ⟨[], [], g₂, true⟩) := by
  intro children
  induction children with
  | nil => intro g g'; right; exact ⟨g, g', rfl, rfl⟩
  | cons c rest ih =>
    intro g g'
    rw [List.foldl_cons, List.foldl_cons]
    match c with
    | .str v =>
      cases v with
      | nil =>
        show rest.foldl (tjChild tc) (([] : Str).foldl (tjChar tc) _) = _ ∨ _
        rw [List.foldl_nil]
        rw [show claimTJChild tc ⟨[], [], g', true⟩ (.str []) =
          (⟨[], [], g', true⟩ : TJState) from rfl]
        exact ih g g'
      | cons ch chs =>
        have e0 : tjChar tc ⟨[], [], g, true⟩ ch = ⟨[], [ch], tc, false⟩ := by
          simp [tjChar]
        have e0' : claimTJChar tc ⟨[], [], g', true⟩ ch = ⟨[], [ch], tc, false⟩ := by
          simp [claimTJChar]
        have e1 : tjChild tc ⟨[], [], g, true⟩ (.str (ch :: chs)) =
            chs.foldl (tjChar tc) ⟨[], [ch], tc, false⟩ := by
          show (ch :: chs).foldl (tjChar tc) _ = _
          rw [List.foldl_cons, e0]
        have e2 : claimTJChild tc ⟨[], [], g', true⟩ (.str (ch :: chs)) =
            chs.foldl (claimTJChar tc) ⟨[], [ch], tc, false⟩ := by
          show (ch :: chs).foldl (claimTJChar tc) _ = _
          rw [List.foldl_cons, e0']
        rw [e1, e2]
        left
        obtain ⟨heq, hf, hc⟩ :=
          foldl_tjChar_eq_claim tc chs ⟨[], [ch], tc, false⟩ rfl (by simp)
        rw [← heq]
        exact (foldl_tjChild_eq_claim tc rest _ hf hc).1
    | .num v =>
      cases hp : parseGoFloat v with
      | none =>
        simp only [tjChild, claimTJChild, hp]
        exact ih g g'
      | some val =>
        simp only [tjChild, claimTJChild, hp]
        exact ih (g - val) (g' - val)
    | .op v =>
      simp only [tjChild, claimTJChild]
      exact ih g g'
    | .arr cs =>
      simp only [tjChild, claimTJChild]
      exact ih g g'

lemma parseGoFloat_zero : parseGoFloat ['0'] = some 0 := by
  norm_num +decide [parseGoFloat, isDigit, List.takeWhile, digitsToNat]

lemma parseGoFloat_neg4704 :
    parseGoFloat ['-', '4', '7', '0', '4', '.', '6'] = some (-(23523 / 5 : ℚ)) := by
  have h1 : digitsToNat ['4', '7', '0', '4'] = 4704 := by decide
  have h2 : digitsToNat ['6'] = 6 := by decide
  norm_num +decide [parseGoFloat, isDigit, List.takeWhile, h1, h2]

/-- The TJ array of the spec example `[(8)0(8)-4704.6(2)0(3)]`. -/
def tjExample : List Tok :=
  [.str ['8'], .num ['0'], .str ['8'],
   .num ['-', '4', '7', '0', '4', '.', '6'],
   .str ['2'], .num ['0'], .str ['3']]

/-- C1: `processTJArray` behaves exactly as the claim's walk (running gap
seeded with `Tc*1000`, flush before each non-first character when the gap
exceeds 500, gap reset after each character, numeric children subtracted),
and the example array with `Tc = 0` yields exactly `"88"` and `"23"`. -/
theorem processTJArray_c1 :
    (∀ (children : List Tok) (tcThousandths : ℚ),
      processTJArray children tcThousandths =
        claimTJArray children tcThousandths) ∧
    processTJArray tjExample 0 = [['8', '8'], ['2', '3']] := by
  constructor
  · intro children tc
    unfold processTJArray claimTJArray
    rcases tj_seed_irrelevant tc children 0 tc with h | ⟨g₁, g₂, h1, h2⟩
    · rw [h]
    · rw [h1, h2]
  · norm_num +decide [processTJArray, tjExample, tjChild, tjChar,
      parseGoFloat_zero, parseGoFloat_neg4704, kerningThreshold,
      abs_eq_max_neg, max_def]

/-! ## Tokenizer -/

/-- Octal digit test (`next >= '0' && next <= '7'`). -/
def isOctal (c : Char) : Bool := '0' ≤ c && c ≤ '7'

/-- Numeric value of an octal digit run. -/
def octalVal (ds : Str) : Nat :=
  ds.foldl (fun a c => a * 8 + (c.toNat - '0'.toNat)) 0

/-- The loop of `readString` from the source: balanced-parenthesis tracking
with escape handling.  Returns the decoded content and the input remaining
after the closing parenthesis.  Octal escapes produce `byte(val)`, modelled as
the code point `val % 256`.  The explicit fuel spends one unit per loop
iteration; every iteration consumes at least one character, so fuel equal to
the input length is enough. -/
def readStringAux : Nat → Nat → Str → Str → Str × Str
  | 0, _, acc, s => (acc, s)
  | _ + 1, _, acc, [] => (acc, [])
  | fuel + 1, depth, acc, '\\' :: rest =>
    match rest with
    | [] => (acc ++ ['\\'], [])
    | next :: rest2 =>
      if next = 'n' then readStringAux fuel depth (acc ++ ['\n']) rest2
      else if next = 'r' then readStringAux fuel depth (acc ++ ['\r']) rest2
      else if next = 't' then readStringAux fuel depth (acc ++ ['\t']) rest2
      else if next = '(' ∨ next = ')' ∨ next = '\\' then
        readStringAux fuel depth (acc ++ [next]) rest2
      else if isOctal next then
        match rest2 with
        | d2 :: rest3 =>
          if isOctal d2 then
            match rest3 with
            | d3 :: rest4 =>
              if isOctal d3 then
                readStringAux fuel depth
                  (acc ++ [Char.ofNat (octalVal [next, d2, d3] % 256)]) rest4
              else
                readStringAux fuel depth
                  (acc ++ [Char.ofNat (octalVal [next, d2] % 256)]) rest3
            | [] =>
              readStringAux fuel depth
                (acc ++ [Char.ofNat (octalVal [next, d2] % 256)]) []
          else
            readStringAux fuel depth
              (acc ++ [Char.ofNat (octalVal [next] % 256)]) rest2
        | [] =>
          readStringAux fuel depth (acc ++ [Char.ofNat (octalVal [next] % 256)]) []
      else readStringAux fuel depth (acc ++ [next]) rest2
  | fuel + 1, depth, acc, '(' :: rest =>
    readStringAux fuel (depth + 1) (acc ++ ['(']) rest
  | fuel + 1, depth, acc, ')' :: rest =>
    if depth = 1 then (acc, rest)
    else readStringAux fuel (depth - 1) (acc ++ [')']) rest
  | fuel + 1, depth, acc, c :: rest => readStringAux fuel depth (acc ++ [c]) rest

/-- The tokenizer's whitespace set (`' '`, `'\t'`, `'\r'`, `'\n'`). -/
def isWhitespaceGo (c : Char) : Bool :=
  c = ' ' || c = '\t' || c = '\r' || c = '\n'

/-- A character that may continue a number (`digit or '.'`). -/
def isNumChar (c : Char) : Bool := isDigit c || c = '.'

/-- Greedy number read: optional sign then digits and dots. -/
def readNumber (s : Str) : Str × Str :=
  match s with
  | '-' :: rest => ('-' :: rest.takeWhile isNumChar, rest.dropWhile isNumChar)
  | '+' :: rest => ('+' :: rest.takeWhile isNumChar, rest.dropWhile isNumChar)
  | s => (s.takeWhile isNumChar, s.dropWhile isNumChar)

/-- Delimiters ending a name or operator run
(`' '`, `'\t'`, `'\r'`, `'\n'`, `'('`, `'['`, `'/'`, `'<'`). -/
def isWordDelim (c : Char) : Bool :=
  c = ' ' || c = '\t' || c = '\r' || c = '\n' ||
  c = '(' || c = '[' || c = '/' || c = '<'

/-- Skip a `<...>` hex string or dictionary, tracking nesting depth. -/
def skipHexAux : Nat → Str → Str
  | _, [] => []
  | depth, c :: rest =>
    if depth = 0 then c :: rest
    else
      skipHexAux
        (if c = '<' then depth + 1 else if c = '>' then depth - 1 else depth)
        rest

/-- The loop of `readArray` from the source, with explicit fuel (one unit per
loop iteration; every iteration consumes at least one character, so fuel equal
to the input length is enough).  Inside an array only parenthesized strings
and numbers become children; any other character — including a nested `[` —
is skipped one position at a time, and the first `]` closes the array. -/
def readArrayAux : Nat → List Tok → Str → List Tok × Str
  | 0, children, s => (children, s)
  | fuel + 1, children, s =>
    match s with
    | [] => (children, [])
    | c :: rest =>
      if isWhitespaceGo c then readArrayAux fuel children rest
      else if c = ']' then (children, rest)
      else if c = '(' then
        let p := readStringAux rest.length 1 [] rest
        readArrayAux fuel (children ++ [.str p.1]) p.2
      else if c = '-' || c = '+' || c = '.' || isDigit c then
        let p := readNumber (c :: rest)
        readArrayAux fuel (children ++ [.num p.1]) p.2
      else readArrayAux fuel children rest

/-- The main tokenizer loop from the source, with explicit fuel (one unit per
loop iteration; every iteration consumes at least one character). -/
def tokenizeAux : Nat → List Tok → Str → List Tok
  | 0, tokens, _ => tokens
  | fuel + 1, tokens, s =>
    match s with
    | [] => tokens
    | c :: rest =>
      if isWhitespaceGo c then tokenizeAux fuel tokens rest
      else if c = '%' then
        tokenizeAux fuel tokens (rest.dropWhile (fun x => x != '\n' && x != '\r'))
      else if c = '(' then
        let p := readStringAux rest.length 1 [] rest
        tokenizeAux fuel (tokens ++ [.str p.1]) p.2
      else if c = '[' then
        let p := readArrayAux rest.length [] rest
        tokenizeAux fuel (tokens ++ [.arr p.1]) p.2
      else if c = '-' || c = '+' || c = '.' || isDigit c then
        let p := readNumber (c :: rest)
        tokenizeAux fuel (tokens ++ [.num p.1]) p.2
      else if c = '/' then
        tokenizeAux fuel tokens (rest.dropWhile (fun x => !isWordDelim x))
      else if c = '<' then
        tokenizeAux fuel tokens (skipHexAux 1 rest)
      else if c = ']' || c = '>' then
        tokenizeAux fuel tokens rest
      else
        let word := c :: rest.takeWhile (fun x => !isWordDelim x)
        let rest2 := rest.dropWhile (fun x => !isWordDelim x)
        tokenizeAux fuel
          (if word = [] then tokens else tokens ++ [.op word]) rest2

/-- `tokenize` from the source. -/
def tokenize (s : Str) : List Tok :=
  tokenizeAux s.length [] s

/-! ## Text Extractor -/

/-- State of the `ExtractTextItems` loop: emitted fragments, operand stack,
current character spacing. -/
structure ExtractState where
  items : List Str
  stack : List Tok
  tc : ℚ

/-- One step of the `ExtractTextItems` operator loop from the source. -/
def extractStep (st : ExtractState) (t : Tok) : ExtractState :=
  match t with
  | .op v =>
    if v = ['T', 'j'] then
      { items :=
          match st.stack.getLast? with
          | some (.str sv) =>
            if kerningThreshold < |st.tc * 1000| then
              st.items ++ sv.map (fun ch => [ch])
            else st.items ++ [sv]
          | _ => st.items,
        stack := [], tc := st.tc }
    else if v = ['T', 'J'] then
      { items :=
          match st.stack.getLast? with
          | some (.arr children) =>
            st.items ++ processTJArray children (st.tc * 1000)
          | _ => st.items,
        stack := [], tc := st.tc }
    else if v = ['T', 'D'] ∨ v = ['T', 'd'] then
      { items :=
          if 2 ≤ st.stack.length then
            match parseGoFloat (st.stack.getLast?.getD (.op [])).value with
            | some ty => if ty ≠ 0 then st.items ++ [[]] else st.items
            | none => st.items
          else st.items,
        stack := [], tc := st.tc }
    else if v = ['T', 'm'] then
      { items := st.items ++ [[]], stack := [], tc := st.tc }
    else if v = ['T', 'c'] then
      { items := st.items, stack := [],
        tc :=
          match st.stack.getLast? with
          | some t2 => (parseGoFloat t2.value).getD st.tc
          | none => st.tc }
    else { items := st.items, stack := [], tc := st.tc }
  | t2 => { st with stack := st.stack ++ [t2] }

/-- `ExtractTextItems` from the source. -/
def ExtractTextItems (stream : Str) : List Str :=
  ((tokenize stream).foldl extractStep ⟨[], [], 0⟩).items

lemma parseGoFloat_five : parseGoFloat ['5'] = some 5 := by
  have h : digitsToNat ['5'] = 5 := by decide
  norm_num +decide [parseGoFloat, isDigit, List.takeWhile, h]

/-- C6: a `Tj` shown while `|Tc*1000| > 500` emits the string character by
character and otherwise as one fragment; `TD`/`Td` append a line-break
sentinel exactly when the top numeric operand `ty` is non-zero; `Tm` always
appends a sentinel. -/
theorem extractStep_c6 :
    (∀ (st : ExtractState) (sv : Str), st.stack.getLast? = some (.str sv) →
      (extractStep st (.op ['T', 'j'])).items =
        if kerningThreshold < |st.tc * 1000| then
          st.items ++ sv.map (fun ch => [ch])
        else st.items ++ [sv]) ∧
    (∀ (st : ExtractState) (t : Tok) (ty : ℚ), 2 ≤ st.stack.length →
      st.stack.getLast? = some t → parseGoFloat t.value = some ty →
      (extractStep st (.op ['T', 'D'])).items =
        (if ty ≠ 0 then st.items ++ [[]] else st.items) ∧
      (extractStep st (.op ['T', 'd'])).items =
        (if ty ≠ 0 then st.items ++ [[]] else st.items)) ∧
    (∀ st : ExtractState, (extractStep st (.op ['T', 'm'])).items =
      st.items ++ [[]]) := by
  refine ⟨?_, ?_, ?_⟩
  · intro st sv h
    simp +decide [extractStep, h]
  · intro st t ty h1 h2 h3
    constructor <;> simp +decide [extractStep, h1, h2, h3]
  · intro st
    simp +decide [extractStep]

/-- Closed instance of `extractStep_c6` at a concrete `Td` with operands
`0 5`, discharging each hypothesis. -/
theorem extractStep_c6_witness :
    (extractStep ⟨[], [.num ['0'], .num ['5']], 0⟩ (.op ['T', 'd'])).items =
      (if (5 : ℚ) ≠ 0 then ([] : List Str) ++ [[]] else []) :=
  (extractStep_c6.2.1 ⟨[], [.num ['0'], .num ['5']], 0⟩ (.num ['5']) 5
    (by decide) rfl parseGoFloat_five).2

/-! ## Array reading is not recursive (C9) -/

/-- The nested-array input `[(a)[(b)](c)]`. -/
def nestedArrayExample : Str :=
  ['[', '(', 'a', ')', '[', '(', 'b', ')', ']', '(', 'c', ')', ']']

/-- C9 counterexample: the tokenizer reads the nested array NON-recursively —
the inner `[` is skipped, the inner children are flattened into the outer
array, the inner `]` closes the outer array, and `(c)` escapes to the top
level.  Neither reading predicted by the claim (nested child kept, or nested
child recursively read then dropped) matches the output. -/
theorem tokenize_c9_counterexample :
    tokenize nestedArrayExample = [.arr [.str ['a'], .str ['b']], .str ['c']] ∧
    tokenize nestedArrayExample ≠ [.arr [.str ['a'], .str ['c']]] ∧
    tokenize nestedArrayExample ≠
      [.arr [.str ['a'], .arr [.str ['b']], .str ['c']]] := by
  have he : tokenize nestedArrayExample =
      [.arr [.str ['a'], .str ['b']], .str ['c']] := rfl
  refine ⟨he, ?_, ?_⟩
  · rw [he]; simp +decide
  · rw [he]; simp +decide

/-- A token whose array children (if any) are all strings or numbers. -/
def tokFlat : Tok → Prop
  | .arr cs => ∀ c ∈ cs, (∃ v, c = .str v) ∨ (∃ v, c = .num v)
  | _ => True

lemma readArrayAux_flat : ∀ (fuel : Nat) (acc : List Tok) (s : Str),
    (∀ c ∈ acc, (∃ v, c = .str v) ∨ (∃ v, c = .num v)) →
    ∀ c ∈ (readArrayAux fuel acc s).1,
      (∃ v, c = .str v) ∨ (∃ v, c = .num v) := by
  intro fuel
  induction fuel with
  | zero => intro acc s h; exact h
  | succ fuel ih =>
    intro acc s h
    match s with
    | [] => exact h
    | c :: rest =>
      simp only [readArrayAux]
      split_ifs with h1 h2 h3 h4
      · exact ih acc rest h
      · exact h
      · refine ih _ _ ?_
        intro x hx
        rcases List.mem_append.mp hx with hx | hx
        · exact h x hx
        · rcases List.mem_cons.mp hx with hx | hx
          · exact Or.inl ⟨_, hx⟩
          · simp at hx
      · refine ih _ _ ?_
        intro x hx
        rcases List.mem_append.mp hx with hx | hx
        · exact h x hx
        · rcases List.mem_cons.mp hx with hx | hx
          · exact Or.inr ⟨_, hx⟩
          · simp at hx
      · exact ih acc rest h

lemma tokenizeAux_flat : ∀ (fuel : Nat) (acc : List Tok) (s : Str),
    (∀ t ∈ acc, tokFlat t) → ∀ t ∈ tokenizeAux fuel acc s, tokFlat t := by
  intro fuel
  induction fuel with
  | zero => intro acc s h; exact h
  | succ fuel ih =>
    intro acc s h
    match s with
    | [] => exact h
    | c :: rest =>
      simp only [tokenizeAux]
      have happend : ∀ (t2 : Tok), tokFlat t2 →
          ∀ t ∈ acc ++ [t2], tokFlat t := by
        intro t2 h2 t ht
        rcases List.mem_append.mp ht with ht | ht
        · exact h t ht
        · rcases List.mem_cons.mp ht with ht | ht
          · rw [ht]; exact h2
          · simp at ht
      split_ifs with h1 h2 h3 h4 h5 h6 h7 h8 h9
      · exact ih acc _ h
      · exact ih acc _ h
      · exact ih _ _ (happend _ trivial)
      · refine ih _ _ (happend _ ?_)
        show ∀ c2 ∈ (readArrayAux rest.length [] rest).1, _
        exact readArrayAux_flat rest.length [] rest (by simp)
      · exact ih _ _ (happend _ trivial)
      · exact ih acc _ h
      · exact ih acc _ h
      · exact ih acc _ h
      · exact h9.elim
      · exact ih _ _ (happend _ trivial)

/-- C9 amended: the tokenizer reads `[...]` arrays non-recursively; only
string and number children are retained (every other character inside an
array, including a nested `[`, is skipped one position at a time), so no
produced array token ever has an array child, and the children of a nested
array are flattened into the outer array with the material after the inner
`]` falling outside it. -/
theorem tokenize_c9_amended :
    (∀ s : Str, ∀ t ∈ tokenize s, tokFlat t) ∧
    tokenize nestedArrayExample =
      [.arr [.str ['a'], .str ['b']], .str ['c']] := by
  constructor
  · intro s
    exact tokenizeAux_flat s.length [] s (by simp)
  · rfl

/-- Closed instance of `tokenize_c9_amended` discharging its membership
hypothesis at the nested-array example. -/
theorem tokenize_c9_witness : tokFlat (.arr [.str ['a'], .str ['b']]) :=
  tokenize_c9_amended.1 nestedArrayExample (.arr [.str ['a'], .str ['b']])
    (by rw [tokenize_c9_amended.2]; exact List.mem_cons_self _ _)

/-! ## Table Mapper -/

/-- The canonical section names, in page order. -/
def knownSections : List Str :=
  ["Filings", "Resolutions", "Clearance", "Clearance Percent", "Backlog",
   "Backlog/100 Mthly Filings", "Backlog Percent",
   "Active Pending"].map String.data

/-- The alias table (`"Terminations"` → `"Resolutions"`). -/
def sectionAliases : List (Str × Str) :=
  [("Terminations".data, "Resolutions".data)]

/-- `strings.Join(line, " ")`. -/
def joinSpace (line : List Str) : Str :=
  List.intercalate [' '] line

/-- `strings.ReplaceAll(s, " ", "")`: delete every space. -/
def compact (s : Str) : Str :=
  s.filter (· != ' ')

/-- `matchSectionName` from the source: compare the space-removed joined line
against each canonical name, then against the alias table; empty result means
no section. -/
def matchSectionName (line : List Str) : Str :=
  let compacted := compact (joinSpace line)
  match knownSections.find? (fun name => compacted == compact name) with
  | some name => name
  | none =>
    match sectionAliases.find? (fun p => compacted == compact p.1) with
    | some p => p.2
    | none => []

/-- Structured parse errors of `ParsePage` (the Go code returns wrapped
`fmt.Errorf` values; the constructor identifies which failure occurred). -/
inductive ParseErr where
  | endOfLines (pos : Nat)
  | titleMismatch (title : Str)
  | sectionMismatch (expected got : Str)
  | emptyDataRow (sect : Str)

/-- `RowData` from the source: a label plus nine positional column values. -/
structure RowData where
  label : Str
  indictables : Str
  dpAndPdp : Str
  otherCriminal : Str
  criminalTotal : Str
  dwi : Str
  trafficMoving : Str
  parking : Str
  trafficTotal : Str
  grandTotal : Str

/-- The ten fields of a `RowData`, in positional order. -/
def RowData.fields (r : RowData) : List Str :=
  [r.label, r.indictables, r.dpAndPdp, r.otherCriminal, r.criminalTotal,
   r.dwi, r.trafficMoving, r.parking, r.trafficTotal, r.grandTotal]

/-- A three-row section (prior, current, percent change). -/
structure SectionWithChange where
  priorPeriod : RowData
  currentPeriod : RowData
  pctChange : RowData

/-- A two-row section (prior, current). -/
structure SectionTwoRow where
  priorPeriod : RowData
  currentPeriod : RowData

/-- `MunicipalityStats` from the source. -/
structure MunicipalityStats where
  county : Str
  municipality : Str
  dateRange : Str
  filings : SectionWithChange
  resolutions : SectionWithChange
  clearance : SectionTwoRow
  clearancePct : SectionTwoRow
  backlog : SectionWithChange
  backlogPer100 : SectionWithChange
  backlogPct : SectionTwoRow
  activePending : SectionWithChange

/-- The `"- -"` placeholder used to pad short rows. -/
def dashDash : Str := "- -".data

/-- The body of `readRow` from the source after the line has been fetched:
repair comma splits (target 10), reject an empty row, pad with `"- -"` to 10,
truncate to the first 10, and map positionally into a `RowData`. -/
def readRow (sect : Str) (line : List Str) : Except ParseErr RowData :=
  let l := mergeCommaSplitNumbers line 10
  if l.length < 1 then .error (.emptyDataRow sect)
  else
    let l2 := l ++ List.replicate (10 - l.length) dashDash
    let l3 := if l2.length > 10 then l2.take 10 else l2
    .ok ⟨l3.getD 0 [], l3.getD 1 [], l3.getD 2 [], l3.getD 3 [], l3.getD 4 [],
         l3.getD 5 [], l3.getD 6 [], l3.getD 7 [], l3.getD 8 [], l3.getD 9 []⟩

/-- The `nextLine` closure of `ParsePage`: return the line at the cursor and
advance, or fail with an end-of-lines error. -/
def nextLine (lines : List (List Str)) (pos : Nat) :
    Except ParseErr (List Str × Nat) :=
  if h : pos < lines.length then .ok (lines[pos], pos + 1)
  else .error (.endOfLines pos)

/-- The header-skipping loop of `ParsePage`: advance until a line matching a
section name (or the end of input). -/
def skipToSection (lines : List (List Str)) (pos : Nat) : Nat :=
  if h : pos < lines.length then
    if matchSectionName lines[pos] ≠ [] then pos
    else skipToSection lines (pos + 1)
  else pos
termination_by lines.length - pos

/-- The `readSectionName` closure of `ParsePage`. -/
def readSectionName (expected : Str) (lines : List (List Str)) (pos : Nat) :
    Except ParseErr Nat := do
  let (line, pos) ← nextLine lines pos
  let got := matchSectionName line
  let got := if got = [] then joinSpace line else got
  if got ≠ expected then throw (ParseErr.sectionMismatch expected got)
  else return pos

/-- The `readRow` closure of `ParsePage` (fetch the next line, then read it). -/
def readRowAt (sect : Str) (lines : List (List Str)) (pos : Nat) :
    Except ParseErr (RowData × Nat) := do
  let (line, pos) ← nextLine lines pos
  let r ← readRow sect line
  return (r, pos)

/-- The `readSectionWithChange` closure of `ParsePage`. -/
def readSectionWithChange (name : Str) (lines : List (List Str)) (pos : Nat) :
    Except ParseErr (SectionWithChange × Nat) := do
  let pos ← readSectionName name lines pos
  let (prior, pos) ← readRowAt name lines pos
  let (current, pos) ← readRowAt name lines pos
  let (pctChange, pos) ← readRowAt name lines pos
  return (⟨prior, current, pctChange⟩, pos)

/-- The `readSectionTwoRow` closure of `ParsePage`. -/
def readSectionTwoRow (name : Str) (lines : List (List Str)) (pos : Nat) :
    Except ParseErr (SectionTwoRow × Nat) := do
  let pos ← readSectionName name lines pos
  let (prior, pos) ← readRowAt name lines pos
  let (current, pos) ← readRowAt name lines pos
  return (⟨prior, current⟩, pos)

/-- `strings.HasPrefix`, character by character. -/
def hasPrefixGo : Str → Str → Bool
  | _, [] => true
  | [], _ :: _ => false
  | c :: cs, d :: ds => c == d && hasPrefixGo cs ds

/-- Go `strings.Contains`: some suffix of `s` starts with `sub`. -/
def containsSub : Str → Str → Bool
  | [], sub => hasPrefixGo [] sub
  | c :: rest, sub => hasPrefixGo (c :: rest) sub || containsSub rest sub

/-- The title marker required in the first header line. -/
def municipalCourtMarker : Str := "MUNICIPAL COURT".data

/-- `ParsePage` from the source: group items into lines, read the four header
lines (title must contain "MUNICIPAL COURT"), skip column-header noise, then
read the eight sections in fixed order. -/
def ParsePage (items : List Str) : Except ParseErr MunicipalityStats := do
  let lines := groupIntoLines items
  let (titleLine, pos) ← nextLine lines 0
  let title := joinSpace titleLine
  if containsSub title municipalCourtMarker = false then
    throw (ParseErr.titleMismatch title)
  let (dateLine, pos) ← nextLine lines pos
  let (countyLine, pos) ← nextLine lines pos
  let (muniLine, pos) ← nextLine lines pos
  let pos := skipToSection lines pos
  let (filings, pos) ← readSectionWithChange "Filings".data lines pos
  let (resolutions, pos) ← readSectionWithChange "Resolutions".data lines pos
  let (clearance, pos) ← readSectionTwoRow "Clearance".data lines pos
  let (clearancePct, pos) ← readSectionTwoRow "Clearance Percent".data lines pos
  let (backlog, pos) ← readSectionWithChange "Backlog".data lines pos
  let (backlogPer100, pos) ←
    readSectionWithChange "Backlog/100 Mthly Filings".data lines pos
  let (backlogPct, pos) ← readSectionTwoRow "Backlog Percent".data lines pos
  let (activePending, _) ← readSectionWithChange "Active Pending".data lines pos
  return { county := joinSpace countyLine, municipality := joinSpace muniLine,
           dateRange := joinSpace dateLine, filings, resolutions, clearance,
           clearancePct, backlog, backlogPer100, backlogPct, activePending }

/-- C7: section matching depends only on the whitespace-removed joined line,
resolves the alias `"Terminations"` to `"Resolutions"`, matches kerning-split
lines such as `["Clearance","Percent"]`, and resolves to no section when
neither a canonical name nor an alias matches. -/
theorem matchSection_c7 :
    (∀ l1 l2 : List Str, compact (joinSpace l1) = compact (joinSpace l2) →
      matchSectionName l1 = matchSectionName l2) ∧
    matchSectionName ["Terminations".data] = "Resolutions".data ∧
    matchSectionName ["Clearance".data, "Percent".data] =
      "Clearance Percent".data ∧
    (∀ line : List Str,
      (∀ name ∈ knownSections, compact (joinSpace line) ≠ compact name) →
      (∀ p ∈ sectionAliases, compact (joinSpace line) ≠ compact p.1) →
      matchSectionName line = []) := by
  refine ⟨?_, by decide, by decide, ?_⟩
  · intro l1 l2 h
    unfold matchSectionName
    rw [h]
  · intro line h1 h2
    have e1 : knownSections.find?
        (fun name => compact (joinSpace line) == compact name) = none := by
      rw [List.find?_eq_none]
      intro x hx
      simpa using h1 x hx
    have e2 : sectionAliases.find?
        (fun p => compact (joinSpace line) == compact p.1) = none := by
      rw [List.find?_eq_none]
      intro x hx
      simpa using h2 x hx
    simp only [matchSectionName, e1, e2]

/-- Closed instance of `matchSection_c7` discharging its hypotheses at the
unrelated line `["100%"]`. -/
theorem matchSection_c7_witness :
    matchSectionName ["Clearance Percent".data] =
      matchSectionName ["Clearance".data, "Percent".data] ∧
    matchSectionName ["100%".data] = [] :=
  ⟨matchSection_c7.1 ["Clearance Percent".data]
      ["Clearance".data, "Percent".data] (by decide),
   matchSection_c7.2.2.2 ["100%".data] (by decide) (by decide)⟩

/-- The repaired, padded and truncated form of a data row. -/
def normalizeRow (line : List Str) : List Str :=
  let l := mergeCommaSplitNumbers line 10
  (l ++ List.replicate (10 - l.length) dashDash).take 10

lemma getD_ten_eq (l : List Str) (h : l.length = 10) :
    [l.getD 0 [], l.getD 1 [], l.getD 2 [], l.getD 3 [], l.getD 4 [],
     l.getD 5 [], l.getD 6 [], l.getD 7 [], l.getD 8 [], l.getD 9 []] = l := by
  apply List.ext_getElem
  · simpa using h.symm
  · intro i hi1 hi2
    have hb : i < 10 := by omega
    interval_cases i <;>
      simp [List.getD_eq_getElem?_getD, List.getElem?_eq_getElem hi2]

lemma normalizeRow_length (line : List Str) : (normalizeRow line).length = 10 := by
  unfold normalizeRow
  simp only [List.length_take, List.length_append, List.length_replicate]
  omega

/-- C3: every `RowData` produced by the data-row reader has exactly 10 fields:
its field list is precisely the repaired row padded with `"- -"` and truncated
to the first 10 items, a list of length exactly 10. -/
theorem readRow_c3 (sect : Str) (line : List Str) (r : RowData)
    (h : readRow sect line = .ok r) :
    r.fields = normalizeRow line ∧ (normalizeRow line).length = 10 ∧
    r.fields.length = 10 := by
  unfold readRow at h
  by_cases hlen : (mergeCommaSplitNumbers line 10).length < 1
  · rw [if_pos hlen] at h
    exact absurd h (by simp)
  · rw [if_neg hlen] at h
    simp only [] at h
    have hl3 : (if (mergeCommaSplitNumbers line 10 ++
          List.replicate (10 - (mergeCommaSplitNumbers line 10).length)
            dashDash).length > 10 then
        (mergeCommaSplitNumbers line 10 ++
          List.replicate (10 - (mergeCommaSplitNumbers line 10).length)
            dashDash).take 10
      else mergeCommaSplitNumbers line 10 ++
          List.replicate (10 - (mergeCommaSplitNumbers line 10).length)
            dashDash) = normalizeRow line := by
      unfold normalizeRow
      split
      · rfl
      · rename_i hgt
        rw [List.take_of_length_le]
        simp only [gt_iff_lt, not_lt, List.length_append,
          List.length_replicate] at hgt ⊢
        omega
    rw [hl3] at h
    have hr : r = ⟨(normalizeRow line).getD 0 [], (normalizeRow line).getD 1 [],
        (normalizeRow line).getD 2 [], (normalizeRow line).getD 3 [],
        (normalizeRow line).getD 4 [], (normalizeRow line).getD 5 [],
        (normalizeRow line).getD 6 [], (normalizeRow line).getD 7 [],
        (normalizeRow line).getD 8 [], (normalizeRow line).getD 9 []⟩ := by
      cases h
      rfl
    have hfields : r.fields = normalizeRow line := by
      rw [hr]
      exact getD_ten_eq _ (normalizeRow_length line)
    refine ⟨hfields, normalizeRow_length line, ?_⟩
    rw [hfields]
    exact normalizeRow_length line

/-- Closed instance of `readRow_c3` at a concrete already-complete row. -/
theorem readRow_c3_witness :
    (RowData.fields ⟨['a'], ['1'], ['2'], ['3'], ['4'], ['5'], ['6'], ['7'],
        ['8'], ['9']⟩ =
      normalizeRow [['a'], ['1'], ['2'], ['3'], ['4'], ['5'], ['6'], ['7'],
        ['8'], ['9']] ∧
     (normalizeRow [['a'], ['1'], ['2'], ['3'], ['4'], ['5'], ['6'], ['7'],
        ['8'], ['9']]).length = 10 ∧
     (RowData.fields ⟨['a'], ['1'], ['2'], ['3'], ['4'], ['5'], ['6'], ['7'],
        ['8'], ['9']⟩).length = 10) :=
  readRow_c3 [] _ _ (by
    have hm : mergeCommaSplitNumbers
        [['a'], ['1'], ['2'], ['3'], ['4'], ['5'], ['6'], ['7'], ['8'], ['9']]
        10 = [['a'], ['1'], ['2'], ['3'], ['4'], ['5'], ['6'], ['7'], ['8'],
          ['9']] := merge_eq_of_le _ _ (by simp)
    simp [readRow, hm])

/-! ## Error behaviour of ParsePage (C4) -/

/-- The structural failures named by the error-handling design: premature end
of input, title mismatch, or section-name mismatch (never a row-level error). -/
def structuralErr : ParseErr → Prop
  | .emptyDataRow _ => False
  | _ => True

lemma throw_eq_error {α : Type} (e : ParseErr) :
    (throw e : Except ParseErr α) = .error e := rfl

lemma pure_eq_ok {α : Type} (a : α) :
    (pure a : Except ParseErr α) = .ok a := rfl

lemma except_bind_err {α β : Type} (x : Except ParseErr α)
    (f : α → Except ParseErr β) (e : ParseErr)
    (h : (x >>= f) = .error e) :
    x = .error e ∨ ∃ a, x = .ok a ∧ f a = .error e := by
  cases x with
  | error e2 =>
    left
    have he : e2 = e := by
      simpa [Bind.bind, Except.bind] using h
    rw [he]
  | ok a =>
    right
    refine ⟨a, rfl, ?_⟩
    simpa [Bind.bind, Except.bind] using h

lemma merge_ne_nil (line : List Str) (exp : Nat) (h : line ≠ []) :
    mergeCommaSplitNumbers line exp ≠ [] := by
  intro hm
  obtain ⟨parts, hfl, -, hmap⟩ := merge_partition line.length line exp (le_refl _)
  rw [hm] at hmap
  have hp : parts = [] := by
    cases parts with
    | nil => rfl
    | cons p t => simp at hmap
  rw [hp] at hfl
  exact h hfl.symm

lemma readRow_ok_of_ne_nil (sect : Str) (line : List Str) (h : line ≠ []) :
    ∃ r, readRow sect line = .ok r := by
  unfold readRow
  rw [if_neg ?_]
  · exact ⟨_, rfl⟩
  · have hne := merge_ne_nil line 10 h
    exact not_lt.mpr (List.length_pos.mpr hne)

lemma nextLine_err (lines : List (List Str)) (pos : Nat) (e : ParseErr)
    (h : nextLine lines pos = .error e) : ∃ p, e = .endOfLines p := by
  unfold nextLine at h
  split at h
  · exact absurd h (by simp)
  · cases h
    exact ⟨pos, rfl⟩

lemma nextLine_ok_mem (lines : List (List Str)) (pos : Nat) (line : List Str)
    (p2 : Nat) (h : nextLine lines pos = .ok (line, p2)) : line ∈ lines := by
  unfold nextLine at h
  split at h
  · cases h
    exact List.getElem_mem _
  · exact absurd h (by simp)

lemma readSectionName_err (expected : Str) (lines : List (List Str))
    (pos : Nat) (e : ParseErr)
    (h : readSectionName expected lines pos = .error e) : structuralErr e := by
  unfold readSectionName at h
  rcases except_bind_err _ _ _ h with h | ⟨⟨line, pos2⟩, -, h⟩
  · obtain ⟨p, rfl⟩ := nextLine_err _ _ _ h
    trivial
  · simp only [] at h
    by_cases hne : (if matchSectionName line = [] then joinSpace line
        else matchSectionName line) ≠ expected
    · rw [if_pos hne, throw_eq_error] at h
      cases h
      trivial
    · rw [if_neg hne, pure_eq_ok] at h
      exact absurd h (by simp)

lemma readRowAt_err (sect : Str) (lines : List (List Str)) (pos : Nat)
    (e : ParseErr) (hl : ∀ l ∈ lines, l ≠ [])
    (h : readRowAt sect lines pos = .error e) : structuralErr e := by
  unfold readRowAt at h
  rcases except_bind_err _ _ _ h with h | ⟨⟨line, pos2⟩, hok, h⟩
  · obtain ⟨p, rfl⟩ := nextLine_err _ _ _ h
    trivial
  · simp only [] at h
    rcases except_bind_err _ _ _ h with h | ⟨r, hok2, h⟩
    · obtain ⟨r, hr⟩ := readRow_ok_of_ne_nil sect line
        (hl line (nextLine_ok_mem lines pos line pos2 hok))
      rw [hr] at h
      exact absurd h (by simp)
    · exact absurd h (by simp [pure_eq_ok])

lemma readSectionWithChange_err (name : Str) (lines : List (List Str))
    (pos : Nat) (e : ParseErr) (hl : ∀ l ∈ lines, l ≠ [])
    (h : readSectionWithChange name lines pos = .error e) : structuralErr e := by
  unfold readSectionWithChange at h
  rcases except_bind_err _ _ _ h with h | ⟨p1, -, h⟩
  · exact readSectionName_err _ _ _ _ h
  rcases except_bind_err _ _ _ h with h | ⟨⟨r1, p2⟩, -, h⟩
  · exact readRowAt_err _ _ _ _ hl h
  simp only [] at h
  rcases except_bind_err _ _ _ h with h | ⟨⟨r2, p3⟩, -, h⟩
  · exact readRowAt_err _ _ _ _ hl h
  simp only [] at h
  rcases except_bind_err _ _ _ h with h | ⟨⟨r3, p4⟩, -, h⟩
  · exact readRowAt_err _ _ _ _ hl h
  · exact absurd h (by simp [pure_eq_ok])

lemma readSectionTwoRow_err (name : Str) (lines : List (List Str))
    (pos : Nat) (e : ParseErr) (hl : ∀ l ∈ lines, l ≠ [])
    (h : readSectionTwoRow name lines pos = .error e) : structuralErr e := by
  unfold readSectionTwoRow at h
  rcases except_bind_err _ _ _ h with h | ⟨p1, -, h⟩
  · exact readSectionName_err _ _ _ _ h
  rcases except_bind_err _ _ _ h with h | ⟨⟨r1, p2⟩, -, h⟩
  · exact readRowAt_err _ _ _ _ hl h
  simp only [] at h
  rcases except_bind_err _ _ _ h with h | ⟨⟨r2, p3⟩, -, h⟩
  · exact readRowAt_err _ _ _ _ hl h
  · exact absurd h (by simp [pure_eq_ok])

/-- C4: `ParsePage` fails exactly on the structural failures — every returned
error is an end-of-lines, title-mismatch or section-mismatch error (a
row-level error is unreachable because grouped lines are never empty); an
empty line sequence fails immediately with `endOfLines 0`, and a first line
without the literal `"MUNICIPAL COURT"` fails immediately with
`titleMismatch`, short-circuiting the rest of the page. -/
theorem parsePage_err_c4 :
    (∀ (items : List Str) (e : ParseErr), ParsePage items = .error e →
      structuralErr e) ∧
    (∀ items : List Str, groupIntoLines items = [] →
      ParsePage items = .error (.endOfLines 0)) ∧
    (∀ (items : List Str) (l : List Str) (ls : List (List Str)),
      groupIntoLines items = l :: ls →
      containsSub (joinSpace l) municipalCourtMarker = false →
      ParsePage items = .error (.titleMismatch (joinSpace l))) := by
  refine ⟨?_, ?_, ?_⟩
  · intro items e h
    have hl : ∀ l ∈ groupIntoLines items, l ≠ [] :=
      groupIntoLinesAux_ne_nil items []
    unfold ParsePage at h
    rcases except_bind_err _ _ _ h with h | ⟨⟨titleLine, p1⟩, -, h⟩
    · obtain ⟨p, rfl⟩ := nextLine_err _ _ _ h
      trivial
    simp only [] at h
    by_cases ht : containsSub (joinSpace titleLine) municipalCourtMarker = false
    · rw [if_pos ht, throw_eq_error] at h
      simp only [Bind.bind, Except.bind] at h
      cases h
      trivial
    rw [if_neg ht, pure_eq_ok] at h
    simp only [Bind.bind, Except.bind] at h
    rcases except_bind_err _ _ _ h with h | ⟨⟨dateLine, p2⟩, -, h⟩
    · obtain ⟨p, rfl⟩ := nextLine_err _ _ _ h
      trivial
    simp only [] at h
    rcases except_bind_err _ _ _ h with h | ⟨⟨countyLine, p3⟩, -, h⟩
    · obtain ⟨p, rfl⟩ := nextLine_err _ _ _ h
      trivial
    simp only [] at h
    rcases except_bind_err _ _ _ h with h | ⟨⟨muniLine, p4⟩, -, h⟩
    · obtain ⟨p, rfl⟩ := nextLine_err _ _ _ h
      trivial
    simp only [] at h
    rcases except_bind_err _ _ _ h with h | ⟨⟨filings, p5⟩, -, h⟩
    · exact readSectionWithChange_err _ _ _ _ hl h
    simp only [] at h
    rcases except_bind_err _ _ _ h with h | ⟨⟨resolutions, p6⟩, -, h⟩
    · exact readSectionWithChange_err _ _ _ _ hl h
    simp only [] at h
    rcases except_bind_err _ _ _ h with h | ⟨⟨clearance, p7⟩, -, h⟩
    · exact readSectionTwoRow_err _ _ _ _ hl h
    simp only [] at h
    rcases except_bind_err _ _ _ h with h | ⟨⟨clearancePct, p8⟩, -, h⟩
    · exact readSectionTwoRow_err _ _ _ _ hl h
    simp only [] at h
    rcases except_bind_err _ _ _ h with h | ⟨⟨backlog, p9⟩, -, h⟩
    · exact readSectionWithChange_err _ _ _ _ hl h
    simp only [] at h
    rcases except_bind_err _ _ _ h with h | ⟨⟨backlogPer100, p10⟩, -, h⟩
    · exact readSectionWithChange_err _ _ _ _ hl h
    simp only [] at h
    rcases except_bind_err _ _ _ h with h | ⟨⟨backlogPct, p11⟩, -, h⟩
    · exact readSectionTwoRow_err _ _ _ _ hl h
    simp only [] at h
    rcases except_bind_err _ _ _ h with h | ⟨⟨activePending, p12⟩, -, h⟩
    · exact readSectionWithChange_err _ _ _ _ hl h
    · exact absurd h (by simp [pure_eq_ok])
  · intro items hnil
    unfold ParsePage
    rw [hnil]
    rfl
  · intro items l ls hcons hfalse
    unfold ParsePage
    rw [hcons]
    simp only []
    have hnext : nextLine (l :: ls) 0 = .ok (l, 1) := by
      unfold nextLine
      rw [dif_pos (by simp)]
      rfl
    rw [hnext]
    simp only [Bind.bind, Except.bind]
    rw [if_pos hfalse]

/-- Closed instance of `parsePage_err_c4` at the empty item sequence. -/
theorem parsePage_err_c4_witness :
    ParsePage [] = .error (.endOfLines 0) ∧ structuralErr (.endOfLines 0) :=
  ⟨parsePage_err_c4.2.1 [] rfl,
   parsePage_err_c4.1 [] (.endOfLines 0) (parsePage_err_c4.2.1 [] rfl)⟩
